import Mathlib

/-!
Verification of the plant-disease-diagnosis service core: the tiered
response parser and service boundary of
`supabase/functions/analyze-plant-disease/index.ts`, and the report
session / PDF-export logic of the `AnalysisResults` component
(`src/components/ImageUpload.tsx`) together with the severity rendering
helpers.

The embedding models `JSON.parse` / `JSON.stringify` on the fragment the
service exchanges: JSON values whose numbers are integers (the schema's
only numeric field, `confidence`, is an integer).  Strings carry the full
escape treatment of both functions.
-/

set_option maxRecDepth 4000

namespace PlantDiagnose

/-- JSON insignificant whitespace, as accepted by `JSON.parse` between tokens. -/
def isJsonWs (c : Char) : Bool :=
  c = ' ' || c = '\t' || c = '\n' || c = '\r'

/-- Characters matched by the JavaScript regex class `\s`. -/
def isRegexWs (c : Char) : Bool :=
  c = ' ' || c = '\t' || c = '\n' || c = '\r' ||
  c = Char.ofNat 11 || c = Char.ofNat 12 || c = Char.ofNat 0xa0 ||
  c = Char.ofNat 0x1680 || (0x2000 ≤ c.toNat && c.toNat ≤ 0x200a) ||
  c = Char.ofNat 0x2028 || c = Char.ofNat 0x2029 || c = Char.ofNat 0x202f ||
  c = Char.ofNat 0x205f || c = Char.ofNat 0x3000 || c = Char.ofNat 0xfeff

def isDigitCh (c : Char) : Bool := '0' ≤ c && c ≤ '9'

/-- The JSON values the service exchanges (numbers restricted to integers). -/
inductive Json where
  | null
  | bool (b : Bool)
  | num (n : Int)
  | str (s : String)
  | arr (items : List Json)
  | obj (fields : List (String × Json))

/-- Drop leading JSON whitespace. -/
def skipJWs : List Char → List Char
  | [] => []
  | c :: cs => if isJsonWs c then skipJWs cs else c :: cs

/-- Hex value of one digit of a `\uXXXX` escape (codes 0-9, a-f, A-F). -/
def hexNib (c : Char) : Option Nat :=
  let n := c.toNat
  if 48 ≤ n ∧ n ≤ 57 then some (n - 48)
  else if 97 ≤ n ∧ n ≤ 102 then some (n - 87)
  else if 65 ≤ n ∧ n ≤ 70 then some (n - 55)
  else none

/-- The character produced by a single-letter escape inside a JSON string. -/
def escCode (c : Char) : Option Char :=
  if c = '"' then some '"'
  else if c = '\\' then some '\\'
  else if c = '/' then some '/'
  else if c = 'b' then some (Char.ofNat 8)
  else if c = 'f' then some (Char.ofNat 12)
  else if c = 'n' then some '\n'
  else if c = 'r' then some '\r'
  else if c = 't' then some '\t'
  else none

/-- Body of a JSON string, after the opening quote, as `JSON.parse` reads it:
ends at an unescaped `"`, decodes `\uXXXX` and the single-letter escapes,
and rejects raw control characters. -/
def strBody : List Char → Option (List Char × List Char)
  | [] => none
  | '"' :: rest => some ([], rest)
  | '\\' :: 'u' :: a :: b :: c :: d :: rest =>
    match hexNib a, hexNib b, hexNib c, hexNib d with
    | some x, some y, some z, some w =>
      (strBody rest).map fun p =>
        (Char.ofNat (((x * 16 + y) * 16 + z) * 16 + w) :: p.1, p.2)
    | _, _, _, _ => none
  | '\\' :: e :: rest =>
    match escCode e with
    | some ch => (strBody rest).map fun p => (ch :: p.1, p.2)
    | none => none
  | c :: rest =>
    if c.toNat < 32 then none
    else (strBody rest).map fun p => (c :: p.1, p.2)

/-- Value of a most-significant-first digit run. -/
def digitsVal (ds : List Char) : Nat :=
  ds.foldl (fun a c => a * 10 + (c.toNat - '0'.toNat)) 0

/-- An integer token: optional minus sign then a nonempty digit run
(the integer fragment of JSON's number grammar). -/
def numTok (cs : List Char) : Option (Int × List Char) :=
  match cs with
  | '-' :: rest =>
    let ds := rest.takeWhile isDigitCh
    if ds = [] then none
    else some (-(digitsVal ds : Int), rest.dropWhile isDigitCh)
  | _ =>
    let ds := cs.takeWhile isDigitCh
    if ds = [] then none
    else some ((digitsVal ds : Int), cs.dropWhile isDigitCh)

/-- One layer of the value parser, over the parsers for the next-lower fuel. -/
def stepVal (pi : List Char → Option (List Json × List Char))
    (pf : List Char → Option (List (String × Json) × List Char))
    (cs : List Char) : Option (Json × List Char) :=
  match skipJWs cs with
  | 'n' :: 'u' :: 'l' :: 'l' :: r => some (.null, r)
  | 't' :: 'r' :: 'u' :: 'e' :: r => some (.bool true, r)
  | 'f' :: 'a' :: 'l' :: 's' :: 'e' :: r => some (.bool false, r)
  | '"' :: r => (strBody r).map fun p => (.str (List.asString p.1), p.2)
  | '[' :: r =>
    (match skipJWs r with
     | ']' :: r2 => some (.arr [], r2)
     | inner => (pi inner).map fun p => (.arr p.1, p.2))
  | '{' :: r =>
    (match skipJWs r with
     | '}' :: r2 => some (.obj [], r2)
     | inner => (pf inner).map fun p => (.obj p.1, p.2))
  | other => (numTok other).map fun p => (.num p.1, p.2)

/-- One layer of the array-items parser (one or more comma-separated values). -/
def stepItems (pv : List Char → Option (Json × List Char))
    (pi : List Char → Option (List Json × List Char))
    (cs : List Char) : Option (List Json × List Char) :=
  match pv cs with
  | none => none
  | some (v, r) =>
    match skipJWs r with
    | ',' :: r2 => (pi r2).map fun p => (v :: p.1, p.2)
    | ']' :: r2 => some ([v], r2)
    | _ => none

/-- One layer of the object-fields parser (one or more `"key": value` pairs). -/
def stepFields (pv : List Char → Option (Json × List Char))
    (pf : List Char → Option (List (String × Json) × List Char))
    (cs : List Char) : Option (List (String × Json) × List Char) :=
  match skipJWs cs with
  | '"' :: r =>
    (match strBody r with
     | none => none
     | some (k, r1) =>
       match skipJWs r1 with
       | ':' :: r2 =>
         (match pv r2 with
          | none => none
          | some (v, r3) =>
            match skipJWs r3 with
            | ',' :: r4 => (pf r4).map fun p => ((List.asString k, v) :: p.1, p.2)
            | '}' :: r4 => some ([(List.asString k, v)], r4)
            | _ => none)
       | _ => none)
  | _ => none

/-- The fuel-indexed parser triple: value, array items, object fields.
Plain structural recursion on the fuel, so the kernel can evaluate it. -/
def jsonP (fuel : Nat) :
    (List Char → Option (Json × List Char)) ×
    (List Char → Option (List Json × List Char)) ×
    (List Char → Option (List (String × Json) × List Char)) :=
  match fuel with
  | 0 => (fun _ => none, fun _ => none, fun _ => none)
  | fuel + 1 =>
    (stepVal (jsonP fuel).2.1 (jsonP fuel).2.2,
     stepItems (jsonP fuel).1 (jsonP fuel).2.1,
     stepFields (jsonP fuel).1 (jsonP fuel).2.2)

def pVal (fuel : Nat) : List Char → Option (Json × List Char) := (jsonP fuel).1
def pItems (fuel : Nat) : List Char → Option (List Json × List Char) := (jsonP fuel).2.1
def pFields (fuel : Nat) : List Char → Option (List (String × Json) × List Char) :=
  (jsonP fuel).2.2

/-- `JSON.parse` on a character list: one value, then only whitespace may remain. -/
def parseChars (cs : List Char) : Option Json :=
  match pVal (cs.length + 1) cs with
  | some (v, r) => if skipJWs r = [] then some v else none
  | none => none

/-- `JSON.parse` on a string (`none` models a thrown `SyntaxError`). -/
def parseJson (s : String) : Option Json := parseChars s.data

example : parseJson "null" = some .null := rfl
example : parseJson " [1, -20] " = some (.arr [.num 1, .num (-20)]) := rfl
example : parseJson "\x7b\"a\": 5, \"b\": [\"x\"]\x7d" =
    some (.obj [("a", .num 5), ("b", .arr [.str "x"])]) := rfl
example : parseJson "\x7b\"a\": tru\x7d" = none := rfl
example : parseJson "\"a\\n\\u0041b\"" = some (.str "a\nAb") := rfl
example : parseJson "12x" = none := rfl
example : parseJson "" = none := rfl

/-! ## `JSON.stringify` on the same fragment -/

/-- Decimal digit character. -/
def digitCh (d : Nat) : Char := Char.ofNat ('0'.toNat + d)

/-- Lowercase hex digit character, as `JSON.stringify` emits in `\u00XX`. -/
def hexDig (d : Nat) : Char :=
  if d < 10 then Char.ofNat ('0'.toNat + d) else Char.ofNat ('a'.toNat + d - 10)

/-- Decimal digits of `n`, most significant first (fuel-guarded so the kernel
can evaluate it; any `fuel > n` gives the digits). -/
def natChs : Nat → Nat → List Char
  | 0, _ => []
  | fuel + 1, n => if n < 10 then [digitCh n] else natChs fuel (n / 10) ++ [digitCh (n % 10)]

def natChars (n : Nat) : List Char := natChs (n + 1) n

/-- Decimal rendering of an integer, as `JSON.stringify` prints whole numbers. -/
def intChars (i : Int) : List Char :=
  if i < 0 then '-' :: natChars i.natAbs else natChars i.natAbs

/-- One character as `JSON.stringify` emits it inside a quoted string. -/
def escapeChar (c : Char) : List Char :=
  if c = '"' then ['\\', '"']
  else if c = '\\' then ['\\', '\\']
  else if c.toNat = 8 then ['\\', 'b']
  else if c.toNat = 9 then ['\\', 't']
  else if c.toNat = 10 then ['\\', 'n']
  else if c.toNat = 12 then ['\\', 'f']
  else if c.toNat = 13 then ['\\', 'r']
  else if c.toNat < 32 then ['\\', 'u', '0', '0', hexDig (c.toNat / 16), hexDig (c.toNat % 16)]
  else [c]

def escAll : List Char → List Char
  | [] => []
  | c :: t => escapeChar c ++ escAll t

/-- A quoted, escaped JSON string literal. -/
def strQuote (s : String) : List Char := '"' :: (escAll s.data ++ ['"'])

mutual

/-- `JSON.stringify` of a value: no added whitespace, fields in order. -/
def renderV : Json → List Char
  | .null => "null".data
  | .bool true => "true".data
  | .bool false => "false".data
  | .num n => intChars n
  | .str s => strQuote s
  | .arr items => '[' :: (renderItemsV items ++ [']'])
  | .obj fields => '{' :: (renderFieldsV fields ++ ['}'])

def renderItemsV : List Json → List Char
  | [] => []
  | [x] => renderV x
  | x :: y :: t => renderV x ++ ',' :: renderItemsV (y :: t)

def renderFieldsV : List (String × Json) → List Char
  | [] => []
  | [(k, v)] => strQuote k ++ ':' :: renderV v
  | (k, v) :: y :: t => strQuote k ++ ':' :: renderV v ++ ',' :: renderFieldsV (y :: t)

end

/-- `JSON.stringify` of a value, as a string. -/
def render (j : Json) : String := List.asString (renderV j)

/-! ## The two extraction regexes of the edge function

`index.ts` line 114 matches `/```(?:json)?\s*([\s\S]*?)\s*```/` and parses
capture group 1; line 119 matches `/\{[\s\S]*\}/` and parses the whole
match.  Both are modelled directly: the first finds the leftmost
triple-backtick, optionally consumes a `json` tag, greedily skips `\s*`,
and the lazy group ends at the earliest point from which only `\s*` remains
before the next triple-backtick. -/

/-- Split at the first occurrence of three consecutive backticks:
`some (before, after)` with the three backticks themselves dropped. -/
def splitTicks : List Char → Option (List Char × List Char)
  | [] => none
  | c :: cs =>
    if ('`' :: '`' :: '`' :: []).isPrefixOf (c :: cs) then some ([], cs.drop 2)
    else match splitTicks cs with
      | some (p, a) => some (c :: p, a)
      | none => none

/-- Remove a maximal trailing run of `\s` characters. -/
def dropTrailWs (cs : List Char) : List Char :=
  ((cs.reverse).dropWhile isRegexWs).reverse

/-- Capture group 1 of `/```(?:json)?\s*([\s\S]*?)\s*```/`, when the regex
matches. -/
def fenceInterior (cs : List Char) : Option (List Char) :=
  match splitTicks cs with
  | none => none
  | some (_, afterOpen) =>
    let afterTag := if ('j' :: 's' :: 'o' :: 'n' :: []).isPrefixOf afterOpen
      then afterOpen.drop 4 else afterOpen
    let body := afterTag.dropWhile isRegexWs
    match splitTicks body with
    | none => none
    | some (beforeClose, _) => some (dropTrailWs beforeClose)

/-- The whole match of `/\{[\s\S]*\}/`: first `{` through the last `}`
after it, when both exist. -/
def braceSpan (cs : List Char) : Option (List Char) :=
  let fromBrace := cs.dropWhile (· ≠ '{')
  let toBrace := ((fromBrace.reverse).dropWhile (· ≠ '}')).reverse
  if toBrace = [] then none else some toBrace

example : fenceInterior "pre ```json\n\x7b\"a\":1\x7d\n``` post".data = some "\x7b\"a\":1\x7d".data := rfl
example : fenceInterior "a ``` x ```".data = some ['x'] := rfl
example : fenceInterior "no fence".data = none := rfl
example : braceSpan "so \x7b\"a\":1\x7d and \x7b\"b\":2\x7d end".data =
    some "\x7b\"a\":1\x7d and \x7b\"b\":2\x7d".data := rfl
example : braceSpan "\x7d no \x7b".data = none := rfl

/-! ## The tiered extraction of `serve` (index.ts lines 107–126)

Tier 1 (`JSON.parse(content)`) is inside a `try`; on its failure the code
matches the fence regex, and if a fence is found, `JSON.parse` of its
interior runs with no surrounding local `try` — an exception there
propagates to the outer handler.  Only when no fence exists is the brace
span tried, again unprotected, and only when that regex also fails does the
code throw `'Could not extract JSON from response'`. -/

inductive PErr where
  | syntaxErr
  | noJsonFound
deriving DecidableEq

/-- The thrown error's `message` as the outer handler serializes it
(`SyntaxError` text is engine-specific; the extraction failure is the
code's own). -/
def PErr.message : PErr → String
  | .syntaxErr => "Unexpected token in JSON"
  | .noJsonFound => "Could not extract JSON from response"

/-- The three-tier extraction applied to the model reply. -/
def extractJson (content : String) : Except PErr Json :=
  match parseJson content with
  | some v => .ok v
  | none =>
    match fenceInterior content.data with
    | some interior =>
      (match parseChars interior with
       | some v => .ok v
       | none => .error .syntaxErr)
    | none =>
      match braceSpan content.data with
      | some span =>
        (match parseChars span with
         | some v => .ok v
         | none => .error .syntaxErr)
      | none => .error .noJsonFound

/-! ## The service boundary of `serve` -/

/-- Body of the HTTP response the edge function returns. -/
inductive RespBody where
  | payload (s : String)
  | errJson (msg : String)
deriving DecidableEq

/-- Observable outcome of one `serve` invocation: response status, body,
and how many times the upstream endpoint was called. -/
structure ServeOut where
  status : Nat
  body : RespBody
  networkCalls : Nat
deriving DecidableEq

/-- `response.ok` of the Fetch API: status in 200..299. -/
def httpOk (status : Nat) : Bool := 200 ≤ status && status < 300

/-- The handler body of `serve`, for a request that reaches the `try` block:
`apiKey` is `Deno.env.get('LOVABLE_API_KEY')`; `upStatus`/`upContent` are the
upstream gateway's status and `data.choices?.[0]?.message?.content` (with
`none` or the empty string both falsy).  All thrown errors land in the
outer catch as a 500 with `{error: message}`. -/
def serveModel (apiKey : Option String) (upStatus : Nat) (upContent : Option String) :
    ServeOut :=
  match apiKey with
  | none => ⟨500, .errJson "LOVABLE_API_KEY is not configured", 0⟩
  | some k =>
    if k = "" then ⟨500, .errJson "LOVABLE_API_KEY is not configured", 0⟩
    else if httpOk upStatus then
      match upContent with
      | none => ⟨500, .errJson "No analysis result received", 1⟩
      | some content =>
        if content = "" then ⟨500, .errJson "No analysis result received", 1⟩
        else match extractJson content with
          | .ok v => ⟨200, .payload (render v), 1⟩
          | .error e => ⟨500, .errJson e.message, 1⟩
    else if upStatus = 429 then
      ⟨429, .errJson "Rate limit exceeded. Please try again later.", 1⟩
    else if upStatus = 402 then
      ⟨402, .errJson "Payment required. Please add credits to your workspace.", 1⟩
    else ⟨500, .errJson "Failed to analyze image", 1⟩

/-! ## The report session (`AnalysisResults.generatePDFInLanguage`)

The component holds `currentData`/`currentLanguage` React state; a PDF
request for `selectedLanguage` first re-analyzes when the language differs
(`supabase.functions.invoke`), throwing on error so state is untouched, and
on success replaces both state values; it then captures the rendered report
(which displays `currentData`) and saves the PDF.  The analysis outcome and
the capture outcome are the two external effects, passed in as oracles. -/

/-- The session state the component holds for one analysis workflow. -/
structure Session where
  record : Json
  language : String

/-- Externally visible effects of one `generatePDFInLanguage` call. -/
inductive UIEffect where
  | analysisCall (language : String)
  | toastShown
  | pdfSaved (captured : Json)

def UIEffect.isAnalysisCall : UIEffect → Bool
  | .analysisCall _ => true
  | _ => false

/-- Lines 507–533: re-analyze when the selected language differs.  Returns
the session afterwards, the `dataToUse` (or the thrown error), and the
effects.  On `invoke` error the throw skips both `set` calls. -/
def reanalyzePhase (s : Session) (selectedLanguage : String)
    (analysisOutcome : Except String Json) :
    Session × Except String Json × List UIEffect :=
  if selectedLanguage = s.language then (s, .ok s.record, [])
  else
    match analysisOutcome with
    | .error e => (s, .error e, [.toastShown, .analysisCall selectedLanguage])
    | .ok d => (⟨d, selectedLanguage⟩, .ok d,
        [.toastShown, .analysisCall selectedLanguage])

/-- Lines 535–554: capture the rendered report (`html2canvas` over the
surface showing `currentData`) and save the PDF.  Touches no session state
and makes no analysis call; a capture error is thrown to the catch. -/
def exportPhase (s : Session) (captureOk : Bool) :
    Session × Except String Json × List UIEffect :=
  if captureOk then (s, .ok s.record, [.pdfSaved s.record])
  else (s, .error "Error generating PDF", [])

/-- The whole `generatePDFInLanguage` body: re-analyze phase, then export
phase; any thrown error lands in the catch (which only toasts). -/
def generatePDFInLanguage (s : Session) (selectedLanguage : String)
    (analysisOutcome : Except String Json) (captureOk : Bool) :
    Session × Except String Json × List UIEffect :=
  match reanalyzePhase s selectedLanguage analysisOutcome with
  | (s1, .error e, effs) => (s1, .error e, effs)
  | (s1, .ok _, effs) =>
    match exportPhase s1 captureOk with
    | (s2, res, effs2) => (s2, res, effs ++ effs2)

/-! ## Severity rendering (`getSeverityData`, ImageUpload.tsx lines 480–488)

`severityMap[severity as keyof typeof severityMap] || 50` is a plain
JavaScript property read on an object literal: a key that is not an own
property is still looked up on `Object.prototype`, whose members (all
functions, plus the `__proto__` accessor) are truthy, so `|| 50` does not
replace them. -/

/-- A JavaScript value that the severity lookup can produce. -/
inductive JsValue where
  | num (n : Nat)
  | protoMember (name : String)
deriving DecidableEq

/-- Property names an object literal inherits from `Object.prototype`. -/
def objectProtoKeys : List String :=
  ["constructor", "hasOwnProperty", "isPrototypeOf", "propertyIsEnumerable",
   "toLocaleString", "toString", "valueOf",
   "__defineGetter__", "__defineSetter__", "__lookupGetter__",
   "__lookupSetter__", "__proto__"]

/-- The property read `severityMap[k]` (undefined modelled as `none`). -/
def severityMapGet (k : String) : Option JsValue :=
  if k = "low" then some (.num 25)
  else if k = "moderate" then some (.num 50)
  else if k = "high" then some (.num 75)
  else if k = "critical" then some (.num 100)
  else if objectProtoKeys.contains k then some (.protoMember k)
  else none

def jsTruthy : JsValue → Bool
  | .num n => n ≠ 0
  | .protoMember _ => true

/-- `getSeverityData`: the looked-up value if truthy, else the default 50. -/
def getSeverityData (severity : String) : JsValue :=
  match severityMapGet severity with
  | some v => if jsTruthy v then v else .num 50
  | none => .num 50

/-! ## The `AnalysisRecord` schema (modelled from the spec)

The edge function performs no validation of the parsed value, so the schema
exists only in the spec's data model (§3) and in the system prompt's
instructions to the model.  `specValidRecord` is the spec's notion of a
valid record, used to state the claims about schema enforcement. -/

def isJStr : Json → Bool
  | .str _ => true
  | _ => false

def isJStrArr : Json → Bool
  | .arr items => items.all isJStr
  | _ => false

def confidenceOk : Json → Bool
  | .num n => 0 ≤ n && n ≤ 100
  | _ => false

def severityOk : Json → Bool
  | .str s => s = "low" || s = "moderate" || s = "high" || s = "critical"
  | _ => false

def spreadRateOk : Json → Bool
  | .str s => s = "low" || s = "moderate" || s = "high"
  | _ => false

def fieldIs (fields : List (String × Json)) (key : String) (p : Json → Bool) : Bool :=
  match fields.lookup key with
  | some v => p v
  | none => false

/-- Modelled from the spec: every `AnalysisRecord` field present and
correctly typed — `confidence` an integer in 0..100, `severity` and
`spreadRate` in their enumerated sets, the five list fields arrays of
strings. -/
def specValidRecord : Json → Bool
  | .obj fields =>
    fieldIs fields "diseaseName" isJStr &&
    fieldIs fields "scientificName" isJStr &&
    fieldIs fields "confidence" confidenceOk &&
    fieldIs fields "severity" severityOk &&
    fieldIs fields "description" isJStr &&
    fieldIs fields "symptoms" isJStrArr &&
    fieldIs fields "causes" isJStrArr &&
    fieldIs fields "treatment" isJStrArr &&
    fieldIs fields "prevention" isJStrArr &&
    fieldIs fields "affectedParts" isJStrArr &&
    fieldIs fields "spreadRate" spreadRateOk
  | _ => false

/-! ## Concrete fixtures -/

/-- A reply that is valid JSON but violates the schema: `confidence` 150. -/
def badConfText : String :=
  "\x7b\"diseaseName\":\"Leaf Blight\",\"scientificName\":\"Alternaria solani\"," ++
  "\"confidence\":150,\"severity\":\"high\",\"description\":\"Dark spots\"," ++
  "\"symptoms\":[\"spots\"],\"causes\":[\"fungus\"],\"treatment\":[\"spray\"]," ++
  "\"prevention\":[\"rotate\"],\"affectedParts\":[\"leaves\"],\"spreadRate\":\"low\"\x7d"

/-- The value `JSON.parse` produces for `badConfText`. -/
def badConfVal : Json :=
  .obj [("diseaseName", .str "Leaf Blight"), ("scientificName", .str "Alternaria solani"),
    ("confidence", .num 150), ("severity", .str "high"),
    ("description", .str "Dark spots"), ("symptoms", .arr [.str "spots"]),
    ("causes", .arr [.str "fungus"]), ("treatment", .arr [.str "spray"]),
    ("prevention", .arr [.str "rotate"]), ("affectedParts", .arr [.str "leaves"]),
    ("spreadRate", .str "low")]

/-- A schema-conforming record. -/
def goodRec : Json :=
  .obj [("diseaseName", .str "Leaf Blight"), ("scientificName", .str "Alternaria solani"),
    ("confidence", .num 87), ("severity", .str "high"),
    ("description", .str "Dark spots on leaves"), ("symptoms", .arr [.str "spots"]),
    ("causes", .arr [.str "fungus"]), ("treatment", .arr [.str "spray"]),
    ("prevention", .arr [.str "rotate"]), ("affectedParts", .arr [.str "leaves"]),
    ("spreadRate", .str "low")]

/-- The percentage mapping the claim states: 25/50/75/100 for the four
enumerated severities and the moderate default 50 for everything else. -/
def claimedSeverityPercent (s : String) : Nat :=
  if s = "low" then 25
  else if s = "moderate" then 50
  else if s = "high" then 75
  else if s = "critical" then 100
  else 50

/-- `rest` cannot extend a digit run: empty or headed by a non-digit. -/
def stopsRun (rest : List Char) : Bool :=
  match rest with
  | [] => true
  | c :: _ => !isDigitCh c

/-- The inner text of `goodRec`'s serialization, without the braces. -/
def goodInner : List Char :=
  ("\"diseaseName\":\"Leaf Blight\",\"scientificName\":\"Alternaria solani\"," ++
   "\"confidence\":87,\"severity\":\"high\",\"description\":\"Dark spots on leaves\"," ++
   "\"symptoms\":[\"spots\"],\"causes\":[\"fungus\"],\"treatment\":[\"spray\"]," ++
   "\"prevention\":[\"rotate\"],\"affectedParts\":[\"leaves\"],\"spreadRate\":\"low\"\x7d").data.dropLast

/-- A reply whose fenced block is not JSON while a brace span after it is. -/
def fencedBrokenText : String := "Result: ```broken``` and \x7b\"a\":1\x7d"

example : parseJson badConfText = some badConfVal := rfl
example : specValidRecord badConfVal = false := rfl
example : specValidRecord goodRec = true := rfl

/-! ## Claims about the tiered parser's validation (C1) and tier fallback (C2) -/

/-- C1, counterexample: a reply that is valid JSON but has `confidence: 150`
is returned as success by the extraction — no schema constraint is checked —
so "every record returned as success satisfies every schema constraint" is
false of the code. -/
theorem c1_success_without_schema_check :
    extractJson badConfText = Except.ok badConfVal ∧ specValidRecord badConfVal = false :=
  ⟨rfl, rfl⟩

/-- C1 as amended: the extraction applies no schema validation; every value
it returns as success is exactly the `JSON.parse` result of the first
applicable tier — the whole text, else a fence interior, else the brace
span — whether or not that value satisfies the `AnalysisRecord` schema. -/
theorem c1_success_is_verbatim_tier_output (content : String) (v : Json)
    (h : extractJson content = Except.ok v) :
    parseJson content = some v ∨
    (parseJson content = none ∧
      ∃ i, fenceInterior content.data = some i ∧ parseChars i = some v) ∨
    (parseJson content = none ∧ fenceInterior content.data = none ∧
      ∃ b, braceSpan content.data = some b ∧ parseChars b = some v) := by
  unfold extractJson at h
  cases h1 : parseJson content with
  | some w => simp only [h1] at h; cases h; exact Or.inl rfl
  | none =>
    cases h2 : fenceInterior content.data with
    | some i =>
      cases h3 : parseChars i with
      | some w =>
        simp only [h1, h2, h3] at h
        cases h
        exact Or.inr (Or.inl ⟨rfl, i, rfl, h3⟩)
      | none => simp only [h1, h2, h3] at h; exact Except.noConfusion h
    | none =>
      cases h4 : braceSpan content.data with
      | some b =>
        cases h5 : parseChars b with
        | some w =>
          simp only [h1, h2, h4, h5] at h
          cases h
          exact Or.inr (Or.inr ⟨rfl, rfl, b, rfl, h5⟩)
        | none => simp only [h1, h2, h4, h5] at h; exact Except.noConfusion h
      | none => simp only [h1, h2, h4] at h; exact Except.noConfusion h

/-- Witness for C1's amended theorem at the concrete out-of-range reply. -/
theorem c1_witness :
    parseJson badConfText = some badConfVal ∨
    (parseJson badConfText = none ∧
      ∃ i, fenceInterior badConfText.data = some i ∧ parseChars i = some badConfVal) ∨
    (parseJson badConfText = none ∧ fenceInterior badConfText.data = none ∧
      ∃ b, braceSpan badConfText.data = some b ∧ parseChars b = some badConfVal) :=
  c1_success_is_verbatim_tier_output badConfText badConfVal rfl

/-- C2, counterexample: with a fenced block whose interior is not JSON, the
uncaught `JSON.parse` exception of tier 2 fails the whole extraction even
though tier 3's brace span would have parsed — tier 3 is not attempted. -/
theorem c2_fence_failure_not_absorbed :
    parseJson fencedBrokenText = none ∧
    fenceInterior fencedBrokenText.data = some "broken".data ∧
    parseChars "broken".data = none ∧
    braceSpan fencedBrokenText.data = some "\x7b\"a\":1\x7d".data ∧
    parseChars "\x7b\"a\":1\x7d".data = some (.obj [("a", .num 1)]) ∧
    extractJson fencedBrokenText = Except.error PErr.syntaxErr :=
  ⟨rfl, rfl, rfl, rfl, rfl, rfl⟩

/-- C2 as amended: a tier-1 failure is absorbed and the fence is tried, but
when a fenced block is found its interior alone decides the outcome — a
parse failure there is an error (the exception propagates) and tier 3 is
never attempted. -/
theorem c2_fence_decides_outcome (content : String) (interior : List Char)
    (h1 : parseJson content = none)
    (h2 : fenceInterior content.data = some interior) :
    extractJson content = (match parseChars interior with
      | some v => Except.ok v
      | none => Except.error PErr.syntaxErr) := by
  unfold extractJson
  rw [h1, h2]

/-- Witness for C2's amended theorem at the concrete broken-fence reply. -/
theorem c2_witness :
    extractJson fencedBrokenText = (match parseChars "broken".data with
      | some v => Except.ok v
      | none => Except.error PErr.syntaxErr) :=
  c2_fence_decides_outcome fencedBrokenText "broken".data rfl rfl

/-! ## Claims about the report session (C3, C4, C6) -/

/-- C3: a `generatePDFInLanguage` call whose analysis invocation errors
leaves the session exactly as it was, and in general the session is either
untouched or replaced — record and language together — by the successful
analysis result for the selected language. -/
theorem c3_failed_reanalysis_preserves_session (s : Session) (lang e : String)
    (cap : Bool) (res : Except String Json) :
    (generatePDFInLanguage s lang (.error e) cap).1 = s ∧
    ((generatePDFInLanguage s lang res cap).1 = s ∨
      ∃ d, res = Except.ok d ∧ (generatePDFInLanguage s lang res cap).1 = ⟨d, lang⟩) := by
  constructor
  · unfold generatePDFInLanguage reanalyzePhase exportPhase
    by_cases hl : lang = s.language
    · simp [hl]
      cases cap <;> simp
    · simp [hl]
  · unfold generatePDFInLanguage reanalyzePhase exportPhase
    by_cases hl : lang = s.language
    · simp [hl]
      cases cap <;> simp
    · cases res with
      | error e2 => simp [hl]
      | ok d =>
        refine Or.inr ⟨d, rfl, ?_⟩
        simp [hl]
        cases cap <;> simp

/-- C4: selecting the currently held language performs no analysis call,
leaves the session unchanged, and the produced document captures the
currently held record (or the capture itself fails, with nothing altered). -/
theorem c4_same_language_no_network (s : Session) (res : Except String Json)
    (cap : Bool) :
    (generatePDFInLanguage s s.language res cap).1 = s ∧
    ((generatePDFInLanguage s s.language res cap).2.2.all
      fun e => !e.isAnalysisCall) = true ∧
    ((generatePDFInLanguage s s.language res cap).2.1 = Except.ok s.record ∨
      (generatePDFInLanguage s s.language res cap).2.1 =
        Except.error "Error generating PDF") := by
  unfold generatePDFInLanguage reanalyzePhase exportPhase
  cases cap <;> simp [UIEffect.isAnalysisCall]

/-- C6: the export phase is read-only with respect to the session — it
never makes an analysis call, the document it saves captures exactly the
record held when it runs, a capture failure changes nothing, and the
composed operation's final session is the re-analyze phase's session. -/
theorem c6_export_read_only (s : Session) (cap : Bool) (lang : String)
    (res : Except String Json) :
    (exportPhase s cap).1 = s ∧
    ((exportPhase s cap).2.2.all fun e => !e.isAnalysisCall) = true ∧
    ((exportPhase s cap).2.1 = Except.ok s.record ∨
      (exportPhase s cap).2.1 = Except.error "Error generating PDF") ∧
    (generatePDFInLanguage s lang res cap).1 = (reanalyzePhase s lang res).1 := by
  refine ⟨?_, ?_, ?_, ?_⟩
  · unfold exportPhase; cases cap <;> simp
  · unfold exportPhase; cases cap <;> simp [UIEffect.isAnalysisCall]
  · unfold exportPhase; cases cap <;> simp
  · unfold generatePDFInLanguage reanalyzePhase exportPhase
    by_cases hl : lang = s.language
    · simp [hl]; cases cap <;> simp
    · cases res with
      | error e => simp [hl]
      | ok d => simp [hl]; cases cap <;> simp

/-! ## Claims about the service boundary (C5, C7) -/

/-- C7: when the credential is absent from configuration the handler
returns the configuration error with status 500 and performs no network
call at all. -/
theorem c7_missing_key_no_network (upStatus : Nat) (upContent : Option String) :
    serveModel none upStatus upContent =
      ⟨500, .errJson "LOVABLE_API_KEY is not configured", 0⟩ := rfl

/-- C5: with a credential present, the service boundary maps the upstream
outcome to stable codes — 429 exactly for upstream 429, 402 exactly for
upstream 402, 200 exactly for a 2xx reply whose nonempty content yields an
extracted record (serialized back as the body), and 500 (with an
`{error: string}` body) for every other failure, including a missing
credential. -/
theorem c5_status_classification (k : String) (hk : k ≠ "") (upStatus : Nat)
    (upContent : Option String) :
    ((serveModel (some k) upStatus upContent).status = 429 ↔ upStatus = 429) ∧
    ((serveModel (some k) upStatus upContent).status = 402 ↔ upStatus = 402) ∧
    ((serveModel (some k) upStatus upContent).status = 200 ∨
      (serveModel (some k) upStatus upContent).status = 402 ∨
      (serveModel (some k) upStatus upContent).status = 429 ∨
      (serveModel (some k) upStatus upContent).status = 500) ∧
    ((serveModel (some k) upStatus upContent).status = 200 ↔
      httpOk upStatus = true ∧ ∃ content v, upContent = some content ∧ content ≠ "" ∧
        extractJson content = Except.ok v ∧
        (serveModel (some k) upStatus upContent).body = RespBody.payload (render v)) ∧
    ((serveModel (some k) upStatus upContent).status ≠ 200 →
      ∃ m, (serveModel (some k) upStatus upContent).body = RespBody.errJson m) ∧
    (serveModel none upStatus upContent).status = 500 := by
  have hnum : httpOk upStatus = true → 200 ≤ upStatus ∧ upStatus < 300 := by
    unfold httpOk
    intro h
    simpa [Bool.and_eq_true, decide_eq_true_eq] using h
  unfold serveModel
  by_cases ho : httpOk upStatus
  · have h429 : upStatus ≠ 429 := by have := hnum ho; omega
    have h402 : upStatus ≠ 402 := by have := hnum ho; omega
    cases upContent with
    | none => simp [hk, ho, h429, h402]
    | some content =>
      by_cases hc : content = ""
      · simp [hk, ho, hc, h429, h402]
      · cases hex : extractJson content with
        | ok v => simp [hk, ho, hc, hex, h429, h402]
        | error e => simp [hk, ho, hc, hex, h429, h402]
  · by_cases h429 : upStatus = 429
    · subst h429
      simp [hk, httpOk]
    · by_cases h402 : upStatus = 402
      · subst h402
        simp [hk, httpOk]
      · simp [hk, ho, h429, h402]

/-- Witness for C5 at a concrete key and a 429 upstream status. -/
theorem c5_witness :
    ((serveModel (some "key") 429 none).status = 429 ↔ (429 : Nat) = 429) ∧
    ((serveModel (some "key") 429 none).status = 402 ↔ (429 : Nat) = 402) ∧
    ((serveModel (some "key") 429 none).status = 200 ∨
      (serveModel (some "key") 429 none).status = 402 ∨
      (serveModel (some "key") 429 none).status = 429 ∨
      (serveModel (some "key") 429 none).status = 500) ∧
    ((serveModel (some "key") 429 none).status = 200 ↔
      httpOk 429 = true ∧ ∃ content v, (none : Option String) = some content ∧
        content ≠ "" ∧ extractJson content = Except.ok v ∧
        (serveModel (some "key") 429 none).body = RespBody.payload (render v)) ∧
    ((serveModel (some "key") 429 none).status ≠ 200 →
      ∃ m, (serveModel (some "key") 429 none).body = RespBody.errJson m) ∧
    (serveModel none 429 none).status = 500 :=
  c5_status_classification "key" (by decide) 429 none

/-! ## The severity-to-percentage claim (C10) -/

/-- C10, counterexample: `severityMap[severity] || 50` is a JavaScript
property read, so the inherited `Object.prototype.toString` — a truthy
function — is returned for severity `"toString"` instead of the claimed
default 50. -/
theorem c10_proto_key_breaks_default :
    getSeverityData "toString" = JsValue.protoMember "toString" ∧
    JsValue.protoMember "toString" ≠ JsValue.num 50 ∧
    ¬("toString" = "low" ∨ "toString" = "moderate" ∨ "toString" = "high" ∨
      "toString" = "critical") := by
  refine ⟨rfl, by decide, by decide⟩

/-- C10 as amended: for every severity string that is not a property name
inherited from `Object.prototype`, the lookup is total and yields exactly
the claimed percentages — 25, 50, 75, 100 for the enumerated severities and
the default 50 otherwise. -/
theorem c10_severity_total_off_proto (s : String)
    (h : objectProtoKeys.contains s = false) :
    getSeverityData s = JsValue.num (claimedSeverityPercent s) := by
  unfold getSeverityData severityMapGet claimedSeverityPercent
  by_cases h1 : s = "low"
  · simp [h1, jsTruthy]
  · by_cases h2 : s = "moderate"
    · simp [h1, h2, jsTruthy]
    · by_cases h3 : s = "high"
      · simp [h1, h2, h3, jsTruthy]
      · by_cases h4 : s = "critical"
        · simp [h1, h2, h3, h4, jsTruthy]
        · have hmem : s ∉ objectProtoKeys := by simpa using h
          simp [h1, h2, h3, h4, hmem]

/-- Witness for C10's amended theorem at the unenumerated value the spec
tests with. -/
theorem c10_witness :
    getSeverityData "extreme" = JsValue.num (claimedSeverityPercent "extreme") :=
  c10_severity_total_off_proto "extreme" (by decide)

/-! ## Round-trip: digits and integer tokens -/

theorem digitCh_spec (d : Nat) (h : d < 10) :
    isDigitCh (digitCh d) = true ∧ (digitCh d).toNat - '0'.toNat = d := by
  interval_cases d <;> exact ⟨rfl, rfl⟩

theorem natChs_ne_nil (fuel n : Nat) (h : n < fuel) : natChs fuel n ≠ [] := by
  match fuel with
  | f + 1 =>
    unfold natChs
    by_cases h10 : n < 10 <;> simp [h10]

theorem natChs_all_digits (fuel : Nat) :
    ∀ n, n < fuel → ∀ c ∈ natChs fuel n, isDigitCh c = true := by
  induction fuel with
  | zero => intro n h; omega
  | succ f ih =>
    intro n h c hc
    unfold natChs at hc
    by_cases h10 : n < 10
    · rw [if_pos h10] at hc
      rcases List.mem_singleton.mp hc with rfl
      exact (digitCh_spec n h10).1
    · rw [if_neg h10] at hc
      rcases List.mem_append.mp hc with hl | hr
      · exact ih (n / 10) (by omega) c hl
      · rcases List.mem_singleton.mp hr with rfl
        exact (digitCh_spec (n % 10) (Nat.mod_lt _ (by omega))).1

theorem digitsVal_append_one (l : List Char) (c : Char) :
    digitsVal (l ++ [c]) = digitsVal l * 10 + (c.toNat - '0'.toNat) := by
  unfold digitsVal
  rw [List.foldl_append]
  rfl

theorem natChs_val (fuel : Nat) :
    ∀ n, n < fuel → digitsVal (natChs fuel n) = n := by
  induction fuel with
  | zero => intro n h; omega
  | succ f ih =>
    intro n h
    unfold natChs
    by_cases h10 : n < 10
    · rw [if_pos h10]
      have := (digitCh_spec n h10).2
      unfold digitsVal
      simpa using this
    · rw [if_neg h10, digitsVal_append_one, ih (n / 10) (by omega),
        (digitCh_spec (n % 10) (Nat.mod_lt _ (by omega))).2]
      omega

theorem natChars_ne_nil (n : Nat) : natChars n ≠ [] :=
  natChs_ne_nil (n + 1) n (by omega)

theorem natChars_all_digits (n : Nat) : ∀ c ∈ natChars n, isDigitCh c = true :=
  natChs_all_digits (n + 1) n (by omega)

theorem natChars_val (n : Nat) : digitsVal (natChars n) = n :=
  natChs_val (n + 1) n (by omega)

theorem takeWhile_run (p : Char → Bool) (l : List Char)
    (hall : ∀ c ∈ l, p c = true) :
    ∀ rest, (∀ c, rest.head? = some c → p c = false) →
      (l ++ rest).takeWhile p = l ∧ (l ++ rest).dropWhile p = rest := by
  induction l with
  | nil =>
    intro rest hstop
    cases rest with
    | nil => exact ⟨rfl, rfl⟩
    | cons c t => simp [List.takeWhile, List.dropWhile, hstop c rfl]
  | cons c t ih =>
    intro rest hstop
    have hc : p c = true := hall c (List.mem_cons_self c t)
    have ht := ih (fun x hx => hall x (List.mem_cons_of_mem c hx)) rest hstop
    simp [List.takeWhile, List.dropWhile, hc, ht.1, ht.2]

theorem isDigitCh_not_minus {c : Char} (h : isDigitCh c = true) : c ≠ '-' := by
  intro hc
  subst hc
  exact absurd h (by decide)

/-- Parsing a rendered integer recovers it and consumes exactly its digits. -/
theorem numTok_intChars (i : Int) (rest : List Char) (hr : stopsRun rest = true) :
    numTok (intChars i ++ rest) = some (i, rest) := by
  have hstop : ∀ c, rest.head? = some c → isDigitCh c = false := by
    intro c hc
    cases rest with
    | nil => exact absurd hc (by simp)
    | cons c2 t =>
      obtain rfl : c2 = c := by simpa using hc
      simpa [stopsRun] using hr
  have hspan := takeWhile_run isDigitCh (natChars i.natAbs)
    (natChars_all_digits i.natAbs) rest hstop
  by_cases hneg : i < 0
  · have harg : intChars i ++ rest = '-' :: (natChars i.natAbs ++ rest) := by
      simp [intChars, hneg]
    rw [harg]
    unfold numTok
    split
    · rename_i r' heq
      obtain ⟨-, rfl⟩ : '-' = '-' ∧ natChars i.natAbs ++ rest = r' :=
        by injection heq with h1 h2; exact ⟨h1, h2⟩
      rw [hspan.1, hspan.2, if_neg (natChars_ne_nil i.natAbs)]
      have hv : (digitsVal (natChars i.natAbs) : Int) = -i := by
        rw [natChars_val]; omega
      rw [hv]
      simp
    · rename_i hno
      exact absurd rfl (hno (natChars i.natAbs ++ rest))
  · obtain ⟨c0, t0, h0⟩ := List.exists_cons_of_ne_nil (natChars_ne_nil i.natAbs)
    have hd0 : isDigitCh c0 = true :=
      natChars_all_digits i.natAbs c0 (by rw [h0]; exact List.mem_cons_self c0 t0)
    have hnm := isDigitCh_not_minus hd0
    have harg : intChars i ++ rest = c0 :: (t0 ++ rest) := by
      simp [intChars, hneg, h0]
    rw [harg]
    unfold numTok
    split
    · rename_i r' heq
      rw [List.cons.injEq] at heq
      exact absurd heq.1 hnm
    · have hback : c0 :: (t0 ++ rest) = natChars i.natAbs ++ rest := by
        rw [h0]; rfl
      rw [hback, hspan.1, hspan.2, if_neg (natChars_ne_nil i.natAbs)]
      have hv : (digitsVal (natChars i.natAbs) : Int) = i := by
        rw [natChars_val]; omega
      rw [hv]

/-! ## Round-trip: string escaping -/

theorem hexNib_hexDig (d : Nat) (h : d < 16) : hexNib (hexDig d) = some d := by
  interval_cases d <;> rfl

theorem asString_data (s : String) : List.asString s.data = s := by
  cases s
  rfl

/-- Reading one escaped character undoes `escapeChar`. -/
theorem strBody_escape (c : Char) (rest : List Char) :
    strBody (escapeChar c ++ rest) = (strBody rest).map fun p => (c :: p.1, p.2) := by
  unfold escapeChar
  by_cases hq : c = '"'
  · subst hq; rw [if_pos rfl]; rfl
  · rw [if_neg hq]
    by_cases hb : c = '\\'
    · subst hb; rw [if_pos rfl]; rfl
    · rw [if_neg hb]
      by_cases h8 : c.toNat = 8
      · rw [if_pos h8]
        have hc : c = Char.ofNat 8 := by rw [← h8, Char.ofNat_toNat]
        subst hc; rfl
      · rw [if_neg h8]
        by_cases h9 : c.toNat = 9
        · rw [if_pos h9]
          have hc : c = Char.ofNat 9 := by rw [← h9, Char.ofNat_toNat]
          subst hc; rfl
        · rw [if_neg h9]
          by_cases h10 : c.toNat = 10
          · rw [if_pos h10]
            have hc : c = Char.ofNat 10 := by rw [← h10, Char.ofNat_toNat]
            subst hc; rfl
          · rw [if_neg h10]
            by_cases h12 : c.toNat = 12
            · rw [if_pos h12]
              have hc : c = Char.ofNat 12 := by rw [← h12, Char.ofNat_toNat]
              subst hc; rfl
            · rw [if_neg h12]
              by_cases h13 : c.toNat = 13
              · rw [if_pos h13]
                have hc : c = Char.ofNat 13 := by rw [← h13, Char.ofNat_toNat]
                subst hc; rfl
              · rw [if_neg h13]
                by_cases hlt : c.toNat < 32
                · rw [if_pos hlt]
                  have hhi : c.toNat / 16 < 16 := by omega
                  have hlo : c.toNat % 16 < 16 := Nat.mod_lt _ (by omega)
                  show strBody ('\\' :: 'u' :: '0' :: '0' ::
                    hexDig (c.toNat / 16) :: hexDig (c.toNat % 16) :: rest) = _
                  rw [strBody]
                  rw [show hexNib '0' = some 0 from rfl,
                    hexNib_hexDig _ hhi, hexNib_hexDig _ hlo]
                  have harith : ((0 * 16 + 0) * 16 + c.toNat / 16) * 16 + c.toNat % 16
                      = c.toNat := by omega
                  dsimp only
                  simp only [harith, Char.ofNat_toNat]
                · rw [if_neg hlt]
                  show strBody (c :: rest) = _
                  rw [strBody.eq_def]
                  split
                  · rename_i heq
                    exact absurd heq (by simp)
                  · rename_i r heq
                    rw [List.cons.injEq] at heq
                    exact absurd heq.1 hq
                  · rename_i a b d e r heq
                    rw [List.cons.injEq] at heq
                    exact absurd heq.1 hb
                  · rename_i e r heq
                    rw [List.cons.injEq] at heq
                    exact absurd heq.1 hb
                  · rename_i c2 r heq
                    rw [List.cons.injEq] at heq
                    obtain ⟨rfl, rfl⟩ := heq
                    rw [if_neg hlt]

theorem strBody_escAll (cs : List Char) :
    ∀ rest, strBody (escAll cs ++ '"' :: rest) = some (cs, rest) := by
  induction cs with
  | nil => intro rest; rfl
  | cons c t ih =>
    intro rest
    rw [escAll, List.append_assoc, strBody_escape, ih]
    rfl

/-! ## Round-trip: heads of rendered values -/

theorem char_eq_iff_toNat {a b : Char} : a = b ↔ a.toNat = b.toNat := by
  rw [Char.ext_iff, UInt32.ext_iff]
  exact Iff.rfl

theorem digit_range {c : Char} (h : isDigitCh c = true) :
    48 ≤ c.toNat ∧ c.toNat ≤ 57 := by
  unfold isDigitCh at h
  rw [Bool.and_eq_true, decide_eq_true_eq, decide_eq_true_eq, Char.le_def, Char.le_def] at h
  exact h

theorem digit_enum {c : Char} (h : isDigitCh c = true) :
    c = '0' ∨ c = '1' ∨ c = '2' ∨ c = '3' ∨ c = '4' ∨ c = '5' ∨ c = '6' ∨
    c = '7' ∨ c = '8' ∨ c = '9' := by
  have hr := digit_range h
  have h0 := hr.1
  have h9 := hr.2
  simp only [char_eq_iff_toNat]
  interval_cases hc : c.toNat <;> simp

theorem digit_not_special {c : Char} (h : isDigitCh c = true) :
    isJsonWs c = false ∧ c ≠ 'n' ∧ c ≠ 't' ∧ c ≠ 'f' ∧ c ≠ '"' ∧ c ≠ '[' ∧
    c ≠ '{' ∧ c ≠ ']' ∧ c ≠ '}' ∧ c ≠ ',' := by
  rcases digit_enum h with rfl | rfl | rfl | rfl | rfl | rfl | rfl | rfl | rfl | rfl <;>
    exact ⟨rfl, by decide, by decide, by decide, by decide, by decide, by decide,
      by decide, by decide, by decide⟩

theorem skipJWs_not_ws {c : Char} {t : List Char} (h : isJsonWs c = false) :
    skipJWs (c :: t) = c :: t := by
  simp [skipJWs, h]

/-- Every rendered value is nonempty and starts with a character that is
neither whitespace nor `]`. -/
theorem renderV_head (j : Json) :
    ∃ c t, renderV j = c :: t ∧ isJsonWs c = false ∧ c ≠ ']' := by
  cases j with
  | null => exact ⟨'n', _, rfl, rfl, by decide⟩
  | bool b => cases b with
    | true => exact ⟨'t', _, rfl, rfl, by decide⟩
    | false => exact ⟨'f', _, rfl, rfl, by decide⟩
  | str s => exact ⟨'"', _, rfl, rfl, by decide⟩
  | arr items => exact ⟨'[', _, rfl, rfl, by decide⟩
  | obj fields => exact ⟨'{', _, rfl, rfl, by decide⟩
  | num n =>
    by_cases hneg : n < 0
    · refine ⟨'-', natChars n.natAbs, ?_, rfl, by decide⟩
      simp [renderV, intChars, hneg]
    · obtain ⟨c0, t0, h0⟩ := List.exists_cons_of_ne_nil (natChars_ne_nil n.natAbs)
      have hd0 : isDigitCh c0 = true :=
        natChars_all_digits n.natAbs c0 (by rw [h0]; exact List.mem_cons_self c0 t0)
      obtain ⟨hws, -, -, -, -, -, -, hbr, -, -⟩ := digit_not_special hd0
      refine ⟨c0, t0, ?_, hws, hbr⟩
      simp [renderV, intChars, hneg, h0]

theorem skipJWs_renderV (j : Json) (x : List Char) :
    skipJWs (renderV j ++ x) = renderV j ++ x := by
  obtain ⟨c, t, heq, hws, -⟩ := renderV_head j
  rw [heq, List.cons_append]
  exact skipJWs_not_ws hws

/-! ## Round-trip: reducing `stepVal` on each rendered shape -/

theorem pVal_succ (f : Nat) : pVal (f + 1) = stepVal (pItems f) (pFields f) := rfl

theorem pItems_succ (f : Nat) : pItems (f + 1) = stepItems (pVal f) (pItems f) := rfl

theorem pFields_succ (f : Nat) : pFields (f + 1) = stepFields (pVal f) (pFields f) := rfl

theorem stepVal_str (pi : List Char → Option (List Json × List Char))
    (pf : List Char → Option (List (String × Json) × List Char))
    (s : String) (rest : List Char) :
    stepVal pi pf (strQuote s ++ rest) = some (.str s, rest) := by
  have harg : strQuote s ++ rest = '"' :: (escAll s.data ++ '"' :: rest) := by
    simp [strQuote]
  have hred : stepVal pi pf ('"' :: (escAll s.data ++ '"' :: rest)) =
      (strBody (escAll s.data ++ '"' :: rest)).map
        fun p => (Json.str (List.asString p.1), p.2) := rfl
  rw [harg, hred, strBody_escAll, Option.map_some', asString_data]

theorem stepVal_default (pi : List Char → Option (List Json × List Char))
    (pf : List Char → Option (List (String × Json) × List Char))
    (c : Char) (t : List Char) (hws : isJsonWs c = false) (hn : c ≠ 'n')
    (ht : c ≠ 't') (hf : c ≠ 'f') (hq : c ≠ '"') (hk : c ≠ '[') (hb : c ≠ '{') :
    stepVal pi pf (c :: t) = (numTok (c :: t)).map fun p => (Json.num p.1, p.2) := by
  unfold stepVal
  rw [skipJWs_not_ws hws]
  split
  · rename_i r heq
    rw [List.cons.injEq] at heq
    exact absurd heq.1 hn
  · rename_i r heq
    rw [List.cons.injEq] at heq
    exact absurd heq.1 ht
  · rename_i r heq
    rw [List.cons.injEq] at heq
    exact absurd heq.1 hf
  · rename_i r heq
    rw [List.cons.injEq] at heq
    exact absurd heq.1 hq
  · rename_i r heq
    rw [List.cons.injEq] at heq
    exact absurd heq.1 hk
  · rename_i r heq
    rw [List.cons.injEq] at heq
    exact absurd heq.1 hb
  · rfl

theorem renderItemsV_cons (x : Json) (xs : List Json) :
    ∃ tail, renderItemsV (x :: xs) = renderV x ++ tail := by
  cases xs with
  | nil => exact ⟨[], by simp [renderItemsV]⟩
  | cons y ys => exact ⟨',' :: renderItemsV (y :: ys), rfl⟩

theorem stepVal_arr_cons (pi : List Char → Option (List Json × List Char))
    (pf : List Char → Option (List (String × Json) × List Char))
    (x : Json) (xs : List Json) (rest : List Char) :
    stepVal pi pf ('[' :: (renderItemsV (x :: xs) ++ ']' :: rest)) =
      (pi (renderItemsV (x :: xs) ++ ']' :: rest)).map
        fun p => (Json.arr p.1, p.2) := by
  have hred : stepVal pi pf ('[' :: (renderItemsV (x :: xs) ++ ']' :: rest)) =
      (match skipJWs (renderItemsV (x :: xs) ++ ']' :: rest) with
       | ']' :: r2 => some (.arr [], r2)
       | inner => (pi inner).map fun p => (.arr p.1, p.2)) := rfl
  obtain ⟨tail, htail⟩ := renderItemsV_cons x xs
  obtain ⟨c, t, hx, hws, hbr⟩ := renderV_head x
  have hform : renderItemsV (x :: xs) ++ ']' :: rest =
      c :: (t ++ tail ++ ']' :: rest) := by
    rw [htail, hx]
    simp
  rw [hred, hform, skipJWs_not_ws hws]
  split
  · rename_i r2 heq
    rw [List.cons.injEq] at heq
    exact absurd heq.1 hbr
  · rfl

theorem renderFieldsV_key_form (kv : String × Json) (fs : List (String × Json)) :
    ∃ X, renderFieldsV (kv :: fs) = '"' :: X := by
  obtain ⟨k, v⟩ := kv
  cases fs with
  | nil =>
    refine ⟨escAll k.data ++ '"' :: ':' :: renderV v, ?_⟩
    simp [renderFieldsV, strQuote]
  | cons y ys =>
    refine ⟨escAll k.data ++ '"' :: ':' ::
      (renderV v ++ ',' :: renderFieldsV (y :: ys)), ?_⟩
    simp [renderFieldsV, strQuote]

theorem stepVal_obj_cons (pi : List Char → Option (List Json × List Char))
    (pf : List Char → Option (List (String × Json) × List Char))
    (kv : String × Json) (fs : List (String × Json)) (rest : List Char) :
    stepVal pi pf ('{' :: (renderFieldsV (kv :: fs) ++ '}' :: rest)) =
      (pf (renderFieldsV (kv :: fs) ++ '}' :: rest)).map
        fun p => (Json.obj p.1, p.2) := by
  obtain ⟨X, hX⟩ := renderFieldsV_key_form kv fs
  rw [hX]
  rfl

theorem stepItems_more (pv : List Char → Option (Json × List Char))
    (pi : List Char → Option (List Json × List Char)) (cs : List Char)
    (v : Json) (r2 : List Char) (hv : pv cs = some (v, ',' :: r2)) :
    stepItems pv pi cs = (pi r2).map fun p => (v :: p.1, p.2) := by
  unfold stepItems
  rw [hv]
  rfl

theorem stepItems_last (pv : List Char → Option (Json × List Char))
    (pi : List Char → Option (List Json × List Char)) (cs : List Char)
    (v : Json) (r2 : List Char) (hv : pv cs = some (v, ']' :: r2)) :
    stepItems pv pi cs = some ([v], r2) := by
  unfold stepItems
  rw [hv]
  rfl

theorem stepFields_entry (pv : List Char → Option (Json × List Char))
    (pf : List Char → Option (List (String × Json) × List Char))
    (k : String) (rest : List Char) :
    stepFields pv pf (strQuote k ++ ':' :: rest) =
      (match pv rest with
       | none => none
       | some (v, r3) =>
         match skipJWs r3 with
         | ',' :: r4 => (pf r4).map fun p => ((k, v) :: p.1, p.2)
         | '}' :: r4 => some ([(k, v)], r4)
         | _ => none) := by
  have harg : strQuote k ++ ':' :: rest = '"' :: (escAll k.data ++ '"' :: (':' :: rest)) := by
    simp [strQuote]
  have hred : stepFields pv pf ('"' :: (escAll k.data ++ '"' :: (':' :: rest))) =
      (match strBody (escAll k.data ++ '"' :: (':' :: rest)) with
       | none => none
       | some (k2, r1) =>
         match skipJWs r1 with
         | ':' :: r2 =>
           (match pv r2 with
            | none => none
            | some (v, r3) =>
              match skipJWs r3 with
              | ',' :: r4 => (pf r4).map fun p => ((List.asString k2, v) :: p.1, p.2)
              | '}' :: r4 => some ([(List.asString k2, v)], r4)
              | _ => none)
         | _ => none) := rfl
  rw [harg, hred, strBody_escAll]
  simp only [asString_data]
  rfl

theorem stepFields_more (pv : List Char → Option (Json × List Char))
    (pf : List Char → Option (List (String × Json) × List Char))
    (k : String) (entryRest : List Char) (v : Json) (r4 : List Char)
    (hv : pv entryRest = some (v, ',' :: r4)) :
    stepFields pv pf (strQuote k ++ ':' :: entryRest) =
      (pf r4).map fun p => ((k, v) :: p.1, p.2) := by
  rw [stepFields_entry, hv]
  rfl

theorem stepFields_last (pv : List Char → Option (Json × List Char))
    (pf : List Char → Option (List (String × Json) × List Char))
    (k : String) (entryRest : List Char) (v : Json) (r4 : List Char)
    (hv : pv entryRest = some (v, '}' :: r4)) :
    stepFields pv pf (strQuote k ++ ':' :: entryRest) = some ([(k, v)], r4) := by
  rw [stepFields_entry, hv]
  rfl

/-! ## The round-trip of the parser over the serializer -/

/-- All three fuel-indexed parsers invert the serializer, by induction on
the fuel (each parser layer consults only the next-lower layer). -/
theorem rtAll (fuel : Nat) :
    (∀ j rest, (renderV j).length < fuel → stopsRun rest = true →
      pVal fuel (renderV j ++ rest) = some (j, rest)) ∧
    (∀ x xs rest, (renderItemsV (x :: xs)).length + 1 < fuel →
      pItems fuel (renderItemsV (x :: xs) ++ ']' :: rest) = some (x :: xs, rest)) ∧
    (∀ k v fs rest, (renderFieldsV ((k, v) :: fs)).length + 1 < fuel →
      pFields fuel (renderFieldsV ((k, v) :: fs) ++ '}' :: rest)
        = some ((k, v) :: fs, rest)) := by
  induction fuel with
  | zero =>
    refine ⟨?_, ?_, ?_⟩
    · intro j rest hfuel _
      exact absurd hfuel (by omega)
    · intro x xs rest hfuel
      exact absurd hfuel (by omega)
    · intro k v fs rest hfuel
      exact absurd hfuel (by omega)
  | succ f ih =>
    refine ⟨?_, ?_, ?_⟩
    · intro j rest hfuel hrest
      rw [pVal_succ]
      cases j with
      | null => rfl
      | bool b => cases b <;> rfl
      | str s => exact stepVal_str _ _ s rest
      | num n =>
        by_cases hneg : n < 0
        · have harg : renderV (.num n) ++ rest = '-' :: (natChars n.natAbs ++ rest) := by
            simp [renderV, intChars, hneg]
          have hback : '-' :: (natChars n.natAbs ++ rest) = intChars n ++ rest := by
            simp [intChars, hneg]
          rw [harg, stepVal_default _ _ '-' _ rfl (by decide) (by decide) (by decide)
            (by decide) (by decide) (by decide), hback, numTok_intChars n rest hrest]
          rfl
        · obtain ⟨c0, t0, h0⟩ := List.exists_cons_of_ne_nil (natChars_ne_nil n.natAbs)
          have hd0 : isDigitCh c0 = true :=
            natChars_all_digits n.natAbs c0 (by rw [h0]; exact List.mem_cons_self c0 t0)
          obtain ⟨hws, hn, ht, hf2, hq, hk, hb, -, -, -⟩ := digit_not_special hd0
          have harg : renderV (.num n) ++ rest = c0 :: (t0 ++ rest) := by
            simp [renderV, intChars, hneg, h0]
          have hback : c0 :: (t0 ++ rest) = intChars n ++ rest := by
            simp [intChars, hneg, h0]
          rw [harg, stepVal_default _ _ c0 _ hws hn ht hf2 hq hk hb, hback,
            numTok_intChars n rest hrest]
          rfl
      | arr items =>
        cases items with
        | nil => rfl
        | cons x xs =>
          have hlen : (renderItemsV (x :: xs)).length + 1 < f := by
            simp only [renderV, List.length_cons, List.length_append] at hfuel
            omega
          have harg : renderV (.arr (x :: xs)) ++ rest =
              '[' :: (renderItemsV (x :: xs) ++ ']' :: rest) := by
            simp [renderV]
          rw [harg, stepVal_arr_cons, ih.2.1 x xs rest hlen]
          rfl
      | obj fields =>
        cases fields with
        | nil => rfl
        | cons kv fs =>
          obtain ⟨k, v⟩ := kv
          have hlen : (renderFieldsV ((k, v) :: fs)).length + 1 < f := by
            simp only [renderV, List.length_cons, List.length_append] at hfuel
            omega
          have harg : renderV (.obj ((k, v) :: fs)) ++ rest =
              '{' :: (renderFieldsV ((k, v) :: fs) ++ '}' :: rest) := by
            simp [renderV]
          rw [harg, stepVal_obj_cons, ih.2.2 k v fs rest hlen]
          rfl
    · intro x xs rest hfuel
      rw [pItems_succ]
      cases xs with
      | nil =>
        have hx : renderItemsV [x] = renderV x := rfl
        have hlen : (renderV x).length < f := by
          rw [hx] at hfuel
          omega
        rw [hx]
        exact stepItems_last _ _ _ x rest (ih.1 x (']' :: rest) hlen rfl)
      | cons y ys =>
        have hlx : 1 ≤ (renderV x).length := by
          obtain ⟨c, t, heq, -, -⟩ := renderV_head x
          rw [heq]
          simp
        have hlen1 : (renderV x).length < f := by
          simp only [renderItemsV, List.length_append, List.length_cons] at hfuel
          omega
        have hlen2 : (renderItemsV (y :: ys)).length + 1 < f := by
          simp only [renderItemsV, List.length_append, List.length_cons] at hfuel
          omega
        have harg : renderItemsV (x :: y :: ys) ++ ']' :: rest =
            renderV x ++ (',' :: (renderItemsV (y :: ys) ++ ']' :: rest)) := by
          simp [renderItemsV]
        rw [harg, stepItems_more _ _ _ x (renderItemsV (y :: ys) ++ ']' :: rest)
          (ih.1 x (',' :: (renderItemsV (y :: ys) ++ ']' :: rest)) hlen1 rfl),
          ih.2.1 y ys rest hlen2]
        rfl
    · intro k v fs rest hfuel
      rw [pFields_succ]
      have hlq : (strQuote k).length = (escAll k.data).length + 2 := by
        simp [strQuote]
      cases fs with
      | nil =>
        have harg : renderFieldsV [(k, v)] ++ '}' :: rest =
            strQuote k ++ ':' :: (renderV v ++ '}' :: rest) := by
          simp [renderFieldsV]
        have hlen : (renderV v).length < f := by
          simp only [renderFieldsV, List.length_append, List.length_cons, hlq] at hfuel
          omega
        rw [harg]
        exact stepFields_last _ _ k _ v rest (ih.1 v ('}' :: rest) hlen rfl)
      | cons y ys =>
        obtain ⟨k2, v2⟩ := y
        have hlv : 1 ≤ (renderV v).length := by
          obtain ⟨c, t, heq, -, -⟩ := renderV_head v
          rw [heq]
          simp
        have hlen1 : (renderV v).length < f := by
          simp only [renderFieldsV, List.length_append, List.length_cons, hlq] at hfuel
          omega
        have hlen2 : (renderFieldsV ((k2, v2) :: ys)).length + 1 < f := by
          simp only [renderFieldsV, List.length_append, List.length_cons, hlq] at hfuel
          omega
        have harg : renderFieldsV ((k, v) :: (k2, v2) :: ys) ++ '}' :: rest =
            strQuote k ++ ':' :: (renderV v ++
              (',' :: (renderFieldsV ((k2, v2) :: ys) ++ '}' :: rest))) := by
          simp [renderFieldsV]
        rw [harg, stepFields_more _ _ k _ v
          (renderFieldsV ((k2, v2) :: ys) ++ '}' :: rest)
          (ih.1 v (',' :: (renderFieldsV ((k2, v2) :: ys) ++ '}' :: rest)) hlen1 rfl),
          ih.2.2 k2 v2 ys rest hlen2]
        rfl

/-- `JSON.parse` inverts `JSON.stringify` on every value of the fragment. -/
theorem parse_render (j : Json) : parseChars (renderV j) = some j := by
  unfold parseChars
  have h := (rtAll ((renderV j).length + 1)).1 j [] (by omega) rfl
  rw [List.append_nil] at h
  rw [h]
  rfl

/-- C8: for every text that is the JSON serialization of a valid
`AnalysisRecord`, the extraction succeeds via tier 1 and returns a value
deep-equal to the source record — serialize-then-parse is the identity. -/
theorem c8_serialize_then_parse_identity (j : Json)
    (_hvalid : specValidRecord j = true) :
    extractJson (render j) = Except.ok j := by
  have hp : parseJson (render j) = some j := parse_render j
  unfold extractJson
  rw [hp]

/-- Witness for C8 at a concrete schema-conforming record. -/
theorem c8_witness : extractJson (render goodRec) = Except.ok goodRec :=
  c8_serialize_then_parse_identity goodRec rfl

/-! ## Extraction through the fence regex (C9) -/

theorem dropWhile_all_append (p : Char → Bool) (A B : List Char)
    (hA : ∀ c ∈ A, p c = true) :
    (A ++ B).dropWhile p = B.dropWhile p := by
  induction A with
  | nil => rfl
  | cons c t ih =>
    have hc := hA c (List.mem_cons_self c t)
    simp only [List.cons_append, List.dropWhile_cons, hc, if_true]
    exact ih fun x hx => hA x (List.mem_cons_of_mem c hx)

theorem dropWhile_head_stop (p : Char → Bool) (c : Char) (B : List Char)
    (hc : p c = false) : (c :: B).dropWhile p = c :: B := by
  simp [List.dropWhile_cons, hc]

theorem splitTicks_clean (A B : List Char) (hA : '`' ∉ A) :
    splitTicks (A ++ '`' :: '`' :: '`' :: B) = some (A, B) := by
  induction A with
  | nil => simp [splitTicks, List.isPrefixOf]
  | cons c t ih =>
    have hc : c ≠ '`' := fun h => hA (h ▸ List.mem_cons_self c t)
    have hpre : (('`' :: '`' :: '`' :: []).isPrefixOf
        (c :: (t ++ '`' :: '`' :: '`' :: B))) = false := by
      simp [List.isPrefixOf]
      intro h
      exact absurd h.symm hc
    rw [List.cons_append, splitTicks]
    rw [hpre]
    simp only [Bool.false_eq_true, if_false]
    rw [ih (fun hx => hA (List.mem_cons_of_mem c hx))]

theorem dropTrailWs_clean (A : List Char) (c : Char) (W : List Char)
    (hc : isRegexWs c = false) (hW : ∀ x ∈ W, isRegexWs x = true) :
    dropTrailWs ((A ++ [c]) ++ W) = A ++ [c] := by
  unfold dropTrailWs
  rw [List.reverse_append, List.reverse_append]
  simp only [List.reverse_cons, List.reverse_nil, List.nil_append]
  rw [dropWhile_all_append isRegexWs W.reverse _
    (fun x hx => hW x (List.mem_reverse.mp hx))]
  rw [List.singleton_append, dropWhile_head_stop isRegexWs c A.reverse hc]
  simp

theorem jsonTagMatches (X : List Char) :
    ((['j', 's', 'o', 'n'] : List Char).isPrefixOf (['j', 's', 'o', 'n'] ++ X)) = true := by
  simp [List.isPrefixOf]

theorem jsonTagMismatch (c : Char) (X : List Char) (hc : c ≠ 'j') :
    (('j' :: 's' :: 'o' :: 'n' :: []).isPrefixOf (c :: X)) = false := by
  simp [List.isPrefixOf]
  intro h
  exact absurd h.symm hc

/-- The fence regex's capture group on a well-formed fenced embedding:
prose, three backticks, an optional `json` tag, whitespace, the braced
text, whitespace, three backticks, trailing prose. -/
theorem fenceInterior_clean (mid P W1 W2 Q : List Char) (tagged : Bool)
    (hP : '`' ∉ P) (hmid : '`' ∉ mid)
    (hW1 : ∀ c ∈ W1, isRegexWs c = true) (hW2 : ∀ c ∈ W2, isRegexWs c = true) :
    fenceInterior (P ++ '`' :: '`' :: '`' ::
        ((if tagged then 'j' :: 's' :: 'o' :: 'n' :: [] else []) ++
          (W1 ++ (('{' :: (mid ++ ['}'])) ++ (W2 ++ '`' :: '`' :: '`' :: Q))))) =
      some ('{' :: (mid ++ ['}'])) := by
  have hwsj : ∀ c, isRegexWs c = true → c ≠ 'j' := by
    intro c hc h
    subst h
    exact absurd hc (by decide)
  have hwsTick : ∀ c, isRegexWs c = true → c ≠ '`' := by
    intro c hc h
    subst h
    exact absurd hc (by decide)
  have hA : '`' ∉ '{' :: ((mid ++ ['}']) ++ W2) := by
    simp only [List.mem_cons, List.mem_append, List.mem_singleton]
    rintro (h | (h | h) | h)
    · exact absurd h.symm (by decide)
    · exact hmid h
    · exact absurd h.symm (by decide)
    · exact hwsTick '`' (hW2 _ h) rfl
  unfold fenceInterior
  rw [splitTicks_clean P _ hP]
  have hdropWs : (W1 ++ (('{' :: (mid ++ ['}'])) ++
        (W2 ++ '`' :: '`' :: '`' :: Q))).dropWhile isRegexWs =
      ('{' :: (mid ++ ['}'])) ++ (W2 ++ '`' :: '`' :: '`' :: Q) := by
    rw [dropWhile_all_append isRegexWs W1 _ hW1, List.cons_append,
      dropWhile_head_stop isRegexWs '{' _ (by decide), ← List.cons_append]
  have hclose : splitTicks ((('{' :: (mid ++ ['}'])) ++
        (W2 ++ '`' :: '`' :: '`' :: Q))) =
      some ('{' :: ((mid ++ ['}']) ++ W2), Q) := by
    have hassoc : ('{' :: (mid ++ ['}'])) ++ (W2 ++ '`' :: '`' :: '`' :: Q) =
        ('{' :: ((mid ++ ['}']) ++ W2)) ++ '`' :: '`' :: '`' :: Q := by
      simp [List.append_assoc]
    rw [hassoc, splitTicks_clean _ _ hA]
  have htrail : dropTrailWs ('{' :: ((mid ++ ['}']) ++ W2)) =
      '{' :: (mid ++ ['}']) := by
    have hassoc : '{' :: ((mid ++ ['}']) ++ W2) =
        (('{' :: mid) ++ ['}']) ++ W2 := by
      simp
    rw [hassoc, dropTrailWs_clean ('{' :: mid) '}' W2 (by decide) hW2]
    simp
  cases tagged with
  | true =>
    rw [if_pos rfl]
    dsimp only
    rw [jsonTagMatches, if_pos rfl]
    have hdrop : ((['j', 's', 'o', 'n'] : List Char) ++
          (W1 ++ (('{' :: (mid ++ ['}'])) ++ (W2 ++ '`' :: '`' :: '`' :: Q)))).drop 4 =
        W1 ++ (('{' :: (mid ++ ['}'])) ++ (W2 ++ '`' :: '`' :: '`' :: Q)) := rfl
    rw [hdrop, hdropWs, hclose]
    show some (dropTrailWs ('{' :: ((mid ++ ['}']) ++ W2))) =
      some ('{' :: (mid ++ ['}']))
    rw [htrail]
  | false =>
    rw [if_neg (by simp)]
    dsimp only
    rw [List.nil_append]
    have hnotag : ((['j', 's', 'o', 'n'] : List Char).isPrefixOf
        (W1 ++ (('{' :: (mid ++ ['}'])) ++ (W2 ++ '`' :: '`' :: '`' :: Q)))) = false := by
      cases W1 with
      | nil =>
        rw [List.nil_append, List.cons_append]
        exact jsonTagMismatch '{' _ (by decide)
      | cons c t =>
        rw [List.cons_append]
        exact jsonTagMismatch c _ (hwsj c (hW1 c (List.mem_cons_self c t)))
    rw [hnotag, if_neg (by simp), hdropWs, hclose]
    show some (dropTrailWs ('{' :: ((mid ++ ['}']) ++ W2))) =
      some ('{' :: (mid ++ ['}']))
    rw [htrail]

/-- C9: a valid record's JSON text embedded in a triple-backtick fence
(optionally tagged `json`), with surrounding prose that keeps the whole
reply from parsing as JSON, is extracted via tier 2: the fence regex
captures exactly the braced text and the extraction returns the identical
record parsed from it. -/
theorem c9_fenced_record_extracted (j : Json)
    (mid P W1 W2 Q : List Char) (tagged : Bool)
    (hparse : parseChars ('{' :: (mid ++ ['}'])) = some j)
    (_hvalid : specValidRecord j = true)
    (hP : '`' ∉ P) (hmid : '`' ∉ mid)
    (hW1 : ∀ c ∈ W1, isRegexWs c = true) (hW2 : ∀ c ∈ W2, isRegexWs c = true)
    (htier1 : parseChars (P ++ '`' :: '`' :: '`' ::
        ((if tagged then 'j' :: 's' :: 'o' :: 'n' :: [] else []) ++
          (W1 ++ (('{' :: (mid ++ ['}'])) ++ (W2 ++ '`' :: '`' :: '`' :: Q))))) = none) :
    extractJson (List.asString (P ++ '`' :: '`' :: '`' ::
        ((if tagged then 'j' :: 's' :: 'o' :: 'n' :: [] else []) ++
          (W1 ++ (('{' :: (mid ++ ['}'])) ++ (W2 ++ '`' :: '`' :: '`' :: Q)))))) =
      Except.ok j := by
  have h1 : parseJson (List.asString (P ++ '`' :: '`' :: '`' ::
      ((if tagged then 'j' :: 's' :: 'o' :: 'n' :: [] else []) ++
        (W1 ++ (('{' :: (mid ++ ['}'])) ++ (W2 ++ '`' :: '`' :: '`' :: Q)))))) =
      none := htier1
  have h2 : fenceInterior (List.asString (P ++ '`' :: '`' :: '`' ::
      ((if tagged then 'j' :: 's' :: 'o' :: 'n' :: [] else []) ++
        (W1 ++ (('{' :: (mid ++ ['}'])) ++ (W2 ++ '`' :: '`' :: '`' :: Q)))))).data =
      some ('{' :: (mid ++ ['}'])) :=
    fenceInterior_clean mid P W1 W2 Q tagged hP hmid hW1 hW2
  unfold extractJson
  rw [h1, h2]
  show (match parseChars ('{' :: (mid ++ ['}'])) with
    | some v => Except.ok v
    | none => Except.error PErr.syntaxErr) = Except.ok j
  rw [hparse]

/-- Witness for C9: a concrete tagged fence with prose on both sides. -/
theorem c9_witness :
    extractJson (List.asString ("Here you go:\n".data ++ '`' :: '`' :: '`' ::
        (('j' :: 's' :: 'o' :: 'n' :: []) ++
          (['\n'] ++ (('{' :: (goodInner ++ ['}'])) ++
            (['\n'] ++ '`' :: '`' :: '`' :: "\nHope this helps!".data)))))) =
      Except.ok goodRec :=
  c9_fenced_record_extracted goodRec goodInner "Here you go:\n".data
    ['\n'] ['\n'] "\nHope this helps!".data true rfl rfl (by decide) (by decide)
    (by decide) (by decide) rfl

end PlantDiagnose
